import Mathlib

/-!
Shallow embedding of the continuous-vesting repository
(src/token_stream.rs, src/clock.rs, src/main.rs).

Conventions of the embedding:
* `u128` values are `ℕ` together with explicit saturation at `U128MAX = 2^128 - 1`
  (`saturating_add` becomes `satAdd128`; `saturating_sub` on unsigned integers is
  exactly truncated subtraction on `ℕ`).
* `u64` clock values are `ℕ` with saturation at `U64MAX = 2^64 - 1`.
* `f64` arithmetic (the decay rate, `exp`, multiplication and `floor`) is modelled
  as exact real arithmetic over `ℝ`; the `as u128` cast of a non-negative float is
  `Int.toNat ∘ Int.floor` clamped at `U128MAX`, matching Rust's saturating
  float-to-int cast.
* The process-wide test clock (`clock.rs`) is modelled by passing the current
  clock reading `now : ℕ` explicitly to every operation, and, for whole-program
  runs, by a `Sys` state that pairs the clock with the account.
-/

noncomputable section

def U128MAX : ℕ := 2 ^ 128 - 1

def U64MAX : ℕ := 2 ^ 64 - 1

/-- `u128::saturating_add`. -/
def satAdd128 (a b : ℕ) : ℕ := min (a + b) U128MAX

/-- `u64::saturating_add` (used by `TestClock::wait`). -/
def satAdd64 (a b : ℕ) : ℕ := min (a + b) U64MAX

/-- The `TokenStream` struct of src/token_stream.rs. -/
structure TokenStream where
  decay_rate_per_second : ℝ
  total_deposited : ℕ
  total_claimed : ℕ
  last_update_principal : ℕ
  last_update_timestamp : ℕ

namespace TokenStream

/-- `TokenStream::decay_rate_from_half_life`: `LN_2 / days` (note: NOT divided by
seconds-per-day; the constant is commented out in the source). -/
def decay_rate_from_half_life (days : ℝ) : ℝ := Real.log 2 / days

/-- `TokenStream::new`: all other fields default to zero. -/
def new (decay_rate_per_second : ℝ) : TokenStream :=
  ⟨decay_rate_per_second, 0, 0, 0, 0⟩

/-- `TokenStream::new_from_half_life`. -/
def new_from_half_life (days : ℝ) : TokenStream :=
  new (decay_rate_from_half_life days)

/-- `TokenStream::balance_still_vesting`, with the current clock reading passed
explicitly.  `dt = now().saturating_sub(self.last_update_timestamp)`, the factor
is `exp(-rate * dt)` and the result is the saturating cast of
`floor(principal * factor)`. -/
def balance_still_vesting (s : TokenStream) (now : ℕ) : ℕ :=
  if s.last_update_principal = 0 then 0
  else
    min (Int.toNat ⌊(s.last_update_principal : ℝ) *
      Real.exp (-s.decay_rate_per_second * ((now - s.last_update_timestamp : ℕ) : ℝ))⌋)
      U128MAX

/-- `TokenStream::total_vested`. -/
def total_vested (s : TokenStream) (now : ℕ) : ℕ :=
  s.total_deposited - s.balance_still_vesting now

/-- `TokenStream::balance_claimable`. -/
def balance_claimable (s : TokenStream) (now : ℕ) : ℕ :=
  s.total_vested now - s.total_claimed

/-- `TokenStream::settle`: returns the updated stream and the returned `p_now`. -/
def settle (s : TokenStream) (now : ℕ) : TokenStream × ℕ :=
  ({ s with
      last_update_principal := s.balance_still_vesting now
      last_update_timestamp := now },
    s.balance_still_vesting now)

/-- `TokenStream::deposit`. -/
def deposit (s : TokenStream) (now amount : ℕ) : TokenStream :=
  { (s.settle now).1 with
      last_update_principal := satAdd128 (s.settle now).2 amount
      total_deposited := satAdd128 (s.settle now).1.total_deposited amount }

/-- `TokenStream::claim`: returns the updated stream and the claimed amount. -/
def claim (s : TokenStream) (now : ℕ) : TokenStream × ℕ :=
  ({ (s.settle now).1 with
      total_claimed := satAdd128 (s.settle now).1.total_claimed
        ((s.settle now).1.total_deposited - (s.settle now).1.total_claimed -
          (s.settle now).2) },
    (s.settle now).1.total_deposited - (s.settle now).1.total_claimed - (s.settle now).2)

/-- `TokenStream::set_half_life`: settles first, then replaces the rate. -/
def set_half_life (s : TokenStream) (now : ℕ) (days : ℝ) : TokenStream :=
  { (s.settle now).1 with
      decay_rate_per_second := decay_rate_from_half_life days }

/-- `TokenStream::unclaimed_total`. -/
def unclaimed_total (s : TokenStream) : ℕ :=
  s.total_deposited - s.total_claimed

end TokenStream

/-- The `RewardBucket` struct of src/main.rs (the duplicated engine type; the
claims only concern its half-life constructors, which are the one place where it
differs from `TokenStream`). -/
structure RewardBucket where
  decay_rate_per_second : ℝ
  total_deposited : ℕ
  total_claimed : ℕ
  last_update_principal : ℕ
  last_update_timestamp : ℕ

namespace RewardBucket

/-- `RewardBucket::SECONDS_PER_DAY`. -/
def SECONDS_PER_DAY : ℝ := 86400

/-- `RewardBucket::decay_rate_from_half_life`: `LN_2 / (days * SECONDS_PER_DAY)`. -/
def decay_rate_from_half_life (days : ℝ) : ℝ :=
  Real.log 2 / (days * SECONDS_PER_DAY)

/-- `RewardBucket::new`. -/
def new (decay_rate_per_second : ℝ) : RewardBucket :=
  ⟨decay_rate_per_second, 0, 0, 0, 0⟩

/-- `RewardBucket::new_from_half_life`. -/
def new_from_half_life (days : ℝ) : RewardBucket :=
  new (decay_rate_from_half_life days)

end RewardBucket

/-- One operation on the combined clock + account state: the public mutating
operations of `TokenStream` plus the clock advance `wait` of clock.rs. -/
inductive Op where
  | deposit (amount : ℕ)
  | claim
  | settle
  | set_half_life (days : ℝ)
  | wait (secs : ℕ)

/-- Combined system state: the process-wide test clock and the account. -/
structure Sys where
  clock : ℕ
  acct : TokenStream

/-- Effect of one operation on the combined state. -/
def applyOp (y : Sys) : Op → Sys
  | .deposit a => ⟨y.clock, y.acct.deposit y.clock a⟩
  | .claim => ⟨y.clock, (y.acct.claim y.clock).1⟩
  | .settle => ⟨y.clock, (y.acct.settle y.clock).1⟩
  | .set_half_life d => ⟨y.clock, y.acct.set_half_life y.clock d⟩
  | .wait d => ⟨satAdd64 y.clock d, y.acct⟩

/-- Run a list of operations from a freshly constructed account (`new r`) and a
clock at 0 (`TestClock::new`). -/
def run (r : ℝ) (ops : List Op) : Sys :=
  ops.foldl applyOp ⟨0, TokenStream.new r⟩

/-- Validity of an operation's argument: deposit amounts are `u128` values, and
half-lives are positive per the documented contract. -/
def OpValid : Op → Prop
  | .deposit a => a ≤ U128MAX
  | .set_half_life d => 0 < d
  | _ => True

/-- A state is reachable if it is produced by running some valid operation
sequence from a freshly constructed account with a positive decay rate. -/
def Reachable (y : Sys) : Prop :=
  ∃ r ops, 0 < r ∧ (∀ o ∈ ops, OpValid o) ∧ run r ops = y

/-- The deposit amount carried by an operation (0 for non-deposits). -/
def depAmt : Op → ℕ
  | .deposit a => a
  | _ => 0

/-- Total amount deposited by a sequence of operations. -/
def depSum (ops : List Op) : ℕ := (ops.map depAmt).sum

/-- The conservation equation of the spec, at the current clock reading. -/
def conservation (y : Sys) : Prop :=
  y.acct.total_deposited =
    y.acct.total_claimed + y.acct.balance_still_vesting y.clock +
      y.acct.balance_claimable y.clock

/-- `consAlong y ops`: conservation holds after every operation of `ops` run
from `y`. -/
def consAlong : Sys → List Op → Prop
  | _, [] => True
  | y, o :: t => conservation (applyOp y o) ∧ consAlong (applyOp y o) t

namespace TokenStream

/-- The branch on `last_update_principal == 0` agrees with the generic formula,
so `balance_still_vesting` can be computed unconditionally. -/
lemma balance_still_vesting_eq (s : TokenStream) (now : ℕ) :
    s.balance_still_vesting now =
      min (Int.toNat ⌊(s.last_update_principal : ℝ) *
        Real.exp (-s.decay_rate_per_second * ((now - s.last_update_timestamp : ℕ) : ℝ))⌋)
        U128MAX := by
  unfold balance_still_vesting
  split
  · rename_i h
    rw [h]
    simp
  · rfl

lemma balance_still_vesting_le_max (s : TokenStream) (now : ℕ) :
    s.balance_still_vesting now ≤ U128MAX := by
  rw [balance_still_vesting_eq]
  exact min_le_right _ _

/-- With a non-negative rate the decay factor is at most 1, hence the
still-vesting balance never exceeds the stored principal. -/
lemma balance_still_vesting_le_principal (s : TokenStream) (now : ℕ)
    (h : 0 ≤ s.decay_rate_per_second) :
    s.balance_still_vesting now ≤ s.last_update_principal := by
  rw [balance_still_vesting_eq]
  refine le_trans (min_le_left _ _) ?_
  have hfac : Real.exp (-s.decay_rate_per_second *
      ((now - s.last_update_timestamp : ℕ) : ℝ)) ≤ 1 := by
    rw [show (1 : ℝ) = Real.exp 0 from (Real.exp_zero).symm]
    apply Real.exp_le_exp.mpr
    have hd : (0 : ℝ) ≤ ((now - s.last_update_timestamp : ℕ) : ℝ) := Nat.cast_nonneg _
    nlinarith
  have hfl : ⌊(s.last_update_principal : ℝ) *
      Real.exp (-s.decay_rate_per_second * ((now - s.last_update_timestamp : ℕ) : ℝ))⌋ ≤
      (s.last_update_principal : ℤ) := by
    rw [show (s.last_update_principal : ℤ) = ⌊(s.last_update_principal : ℝ)⌋ by
      rw [Int.floor_natCast]]
    apply Int.floor_le_floor
    have hp : (0 : ℝ) ≤ (s.last_update_principal : ℝ) := Nat.cast_nonneg _
    nlinarith
  omega

/-- When no time has elapsed since the snapshot (`now ≤ last_update_timestamp`
included, thanks to the saturating subtraction), the still-vesting balance is
the stored principal, clamped at `U128MAX`. -/
lemma balance_still_vesting_dt_zero (s : TokenStream) (now : ℕ)
    (h : now ≤ s.last_update_timestamp) :
    s.balance_still_vesting now = min s.last_update_principal U128MAX := by
  rw [balance_still_vesting_eq]
  rw [Nat.sub_eq_zero_of_le h]
  norm_num

/-- If the stored principal is a valid `u128`, zero elapsed time returns it
exactly. -/
lemma balance_still_vesting_dt_zero_eq (s : TokenStream) (now : ℕ)
    (h : now ≤ s.last_update_timestamp) (hp : s.last_update_principal ≤ U128MAX) :
    s.balance_still_vesting now = s.last_update_principal := by
  rw [balance_still_vesting_dt_zero s now h]
  exact min_eq_left hp

end TokenStream

namespace TokenStream

lemma settle_fields (s : TokenStream) (c : ℕ) :
    (s.settle c).1.decay_rate_per_second = s.decay_rate_per_second ∧
    (s.settle c).1.total_deposited = s.total_deposited ∧
    (s.settle c).1.total_claimed = s.total_claimed ∧
    (s.settle c).1.last_update_principal = s.balance_still_vesting c ∧
    (s.settle c).1.last_update_timestamp = c ∧
    (s.settle c).2 = s.balance_still_vesting c := by
  simp [settle]

/-- A freshly settled state reports its stored principal as still vesting. -/
lemma balance_still_vesting_after_settle (s : TokenStream) (c : ℕ) :
    (s.settle c).1.balance_still_vesting c = s.balance_still_vesting c := by
  apply balance_still_vesting_dt_zero_eq
  · simp [settle]
  · simp [settle]
    exact balance_still_vesting_le_max s c

end TokenStream

/-- Claim C3: for every account state (any `u128`-representable totals) and any
clock reading, `claim()` returns exactly what `balance_claimable()` reported
immediately beforehand, and immediately afterwards (same clock reading)
`balance_claimable()` is 0. -/
theorem C3_claim_exactness (s : TokenStream) (c : ℕ)
    (htd : s.total_deposited ≤ U128MAX) :
    (s.claim c).2 = s.balance_claimable c ∧
      (s.claim c).1.balance_claimable c = 0 := by
  have hp : s.balance_still_vesting c ≤ U128MAX := s.balance_still_vesting_le_max c
  constructor
  · simp only [TokenStream.claim, TokenStream.settle, TokenStream.balance_claimable,
      TokenStream.total_vested]
    omega
  · have hafter : (s.claim c).1.balance_still_vesting c = s.balance_still_vesting c := by
      apply TokenStream.balance_still_vesting_dt_zero_eq
      · simp [TokenStream.claim, TokenStream.settle]
      · simp [TokenStream.claim, TokenStream.settle]
        exact hp
    simp only [TokenStream.balance_claimable, TokenStream.total_vested, hafter]
    simp only [TokenStream.claim, TokenStream.settle, satAdd128]
    omega

/-- Witness for C3 at a concrete input. -/
theorem C3_claim_exactness_witness :
    ((TokenStream.new 1).claim 0).2 = (TokenStream.new 1).balance_claimable 0 ∧
      ((TokenStream.new 1).claim 0).1.balance_claimable 0 = 0 :=
  C3_claim_exactness (TokenStream.new 1) 0 (by simp [TokenStream.new])

/-- Claim C7: settling twice at the same clock reading is a no-op: the second
call returns the same value, leaves the state of the first call unchanged, and
every observable quantity is unchanged by the second call. -/
theorem C7_settle_idempotent (s : TokenStream) (c : ℕ) :
    ((s.settle c).1.settle c).1 = (s.settle c).1 ∧
    ((s.settle c).1.settle c).2 = (s.settle c).2 ∧
    ((s.settle c).1.settle c).1.balance_still_vesting c =
      (s.settle c).1.balance_still_vesting c ∧
    ((s.settle c).1.settle c).1.balance_claimable c =
      (s.settle c).1.balance_claimable c ∧
    ((s.settle c).1.settle c).1.total_vested c = (s.settle c).1.total_vested c ∧
    ((s.settle c).1.settle c).1.total_claimed = (s.settle c).1.total_claimed ∧
    ((s.settle c).1.settle c).1.unclaimed_total = (s.settle c).1.unclaimed_total := by
  have hkey : (s.settle c).1.balance_still_vesting c = s.balance_still_vesting c :=
    s.balance_still_vesting_after_settle c
  have hstate : ((s.settle c).1.settle c).1 = (s.settle c).1 := by
    simp only [TokenStream.settle] at hkey ⊢
    simp [hkey]
  have hret : ((s.settle c).1.settle c).2 = (s.settle c).2 := by
    simp only [TokenStream.settle] at hkey ⊢
    exact hkey
  refine ⟨hstate, hret, ?_, ?_, ?_, ?_, ?_⟩ <;> rw [hstate]

/-- Claim C10: if the clock is reset backward past the last settlement
timestamp, the saturating `dt` computation clamps elapsed time to 0, so every
query and every mutating operation behaves exactly as it would at the moment of
the last settlement (the only difference in resulting state being the recorded
timestamp, which the mutating operations set to the current clock reading). -/
theorem C10_backward_clock (s : TokenStream) (c : ℕ)
    (h : c ≤ s.last_update_timestamp) :
    s.balance_still_vesting c = s.balance_still_vesting s.last_update_timestamp ∧
    s.balance_claimable c = s.balance_claimable s.last_update_timestamp ∧
    s.total_vested c = s.total_vested s.last_update_timestamp ∧
    (s.settle c).2 = (s.settle s.last_update_timestamp).2 ∧
    (s.settle c).1 =
      { (s.settle s.last_update_timestamp).1 with last_update_timestamp := c } ∧
    (s.claim c).2 = (s.claim s.last_update_timestamp).2 ∧
    (s.claim c).1 =
      { (s.claim s.last_update_timestamp).1 with last_update_timestamp := c } ∧
    (∀ a, s.deposit c a =
      { s.deposit s.last_update_timestamp a with last_update_timestamp := c }) ∧
    (∀ d, s.set_half_life c d =
      { s.set_half_life s.last_update_timestamp d with last_update_timestamp := c }) := by
  have hb : s.balance_still_vesting c = s.balance_still_vesting s.last_update_timestamp := by
    rw [s.balance_still_vesting_dt_zero c h,
      s.balance_still_vesting_dt_zero s.last_update_timestamp (le_refl _)]
  cases s with
  | mk r td tc p ts =>
    refine ⟨hb, ?_, ?_, ?_, ?_, ?_, ?_, ?_, ?_⟩ <;>
      simp [TokenStream.balance_claimable, TokenStream.total_vested, TokenStream.settle,
        TokenStream.claim, TokenStream.deposit, TokenStream.set_half_life, hb]

/-- Witness for C10 at a concrete input. -/
theorem C10_backward_clock_witness :
    (TokenStream.mk 1 0 0 0 5).balance_still_vesting 3 =
      (TokenStream.mk 1 0 0 0 5).balance_still_vesting 5 ∧
    (TokenStream.mk 1 0 0 0 5).balance_claimable 3 =
      (TokenStream.mk 1 0 0 0 5).balance_claimable 5 ∧
    (TokenStream.mk 1 0 0 0 5).total_vested 3 =
      (TokenStream.mk 1 0 0 0 5).total_vested 5 ∧
    ((TokenStream.mk 1 0 0 0 5).settle 3).2 = ((TokenStream.mk 1 0 0 0 5).settle 5).2 ∧
    ((TokenStream.mk 1 0 0 0 5).settle 3).1 =
      { ((TokenStream.mk 1 0 0 0 5).settle 5).1 with last_update_timestamp := 3 } ∧
    ((TokenStream.mk 1 0 0 0 5).claim 3).2 = ((TokenStream.mk 1 0 0 0 5).claim 5).2 ∧
    ((TokenStream.mk 1 0 0 0 5).claim 3).1 =
      { ((TokenStream.mk 1 0 0 0 5).claim 5).1 with last_update_timestamp := 3 } ∧
    (∀ a, (TokenStream.mk 1 0 0 0 5).deposit 3 a =
      { (TokenStream.mk 1 0 0 0 5).deposit 5 a with last_update_timestamp := 3 }) ∧
    (∀ d, (TokenStream.mk 1 0 0 0 5).set_half_life 3 d =
      { (TokenStream.mk 1 0 0 0 5).set_half_life 5 d with last_update_timestamp := 3 }) :=
  C10_backward_clock (TokenStream.mk 1 0 0 0 5) 3 (by norm_num)

lemma toNat_floor_mul_le (p : ℕ) (x : ℝ) (hx1 : x ≤ 1) :
    Int.toNat ⌊(p : ℝ) * x⌋ ≤ p := by
  have h1 : ⌊(p : ℝ) * x⌋ ≤ (p : ℤ) := by
    rw [show (p : ℤ) = ⌊(p : ℝ)⌋ by rw [Int.floor_natCast]]
    apply Int.floor_le_floor
    have hp : (0 : ℝ) ≤ (p : ℝ) := Nat.cast_nonneg _
    nlinarith
  omega

lemma exp_neg_nonneg_le_one (r d : ℝ) (hr : 0 ≤ r) (hd : 0 ≤ d) :
    Real.exp (-r * d) ≤ 1 := by
  rw [show (1 : ℝ) = Real.exp 0 from (Real.exp_zero).symm]
  apply Real.exp_le_exp.mpr
  nlinarith

/-- Evaluation of the decay factor when the rate is the log of a rational:
`exp(-log q * n) = (1/q)^n`. -/
lemma exp_neg_log_mul (q : ℝ) (hq : 0 < q) (n : ℕ) :
    Real.exp (-Real.log q * (n : ℝ)) = q⁻¹ ^ n := by
  rw [show -Real.log q * (n : ℝ) = (n : ℝ) * -Real.log q by ring]
  rw [Real.exp_nat_mul, Real.exp_neg, Real.exp_log hq]

namespace TokenStream

/-- Depositing into a fresh account sets both the principal and the cumulative
deposit total to the deposited amount and stamps the deposit time. -/
lemma deposit_fresh (lam : ℝ) (t0 P : ℕ) (hP : P ≤ U128MAX) :
    (TokenStream.new lam).deposit t0 P = ⟨lam, P, 0, P, t0⟩ := by
  simp only [deposit, settle, new, balance_still_vesting, satAdd128]
  simp only [mk.injEq]
  norm_num
  omega

end TokenStream

/-- Claim C2: deposit `P` at clock time `t0` into a fresh account with rate
`lam ≥ 0`, then advance the clock by `d` (without clock saturation): the
still-vesting balance is exactly `floor(P * exp(-lam * d))` and the claimable
balance is `P` minus that; moreover, whenever the stored principal snapshot is
0, `balance_still_vesting` returns 0. -/
theorem C2_decay_correctness (lam : ℝ) (P t0 d : ℕ) (hlam : 0 ≤ lam)
    (hP : P ≤ U128MAX) (ht : t0 + d ≤ U64MAX) :
    ((applyOp (applyOp ⟨t0, TokenStream.new lam⟩ (Op.deposit P)) (Op.wait d)).acct.balance_still_vesting
        (applyOp (applyOp ⟨t0, TokenStream.new lam⟩ (Op.deposit P)) (Op.wait d)).clock =
      Int.toNat ⌊(P : ℝ) * Real.exp (-lam * (d : ℝ))⌋) ∧
    ((applyOp (applyOp ⟨t0, TokenStream.new lam⟩ (Op.deposit P)) (Op.wait d)).acct.balance_claimable
        (applyOp (applyOp ⟨t0, TokenStream.new lam⟩ (Op.deposit P)) (Op.wait d)).clock =
      P - Int.toNat ⌊(P : ℝ) * Real.exp (-lam * (d : ℝ))⌋) ∧
    (∀ (s : TokenStream) (c : ℕ), s.last_update_principal = 0 →
      s.balance_still_vesting c = 0) := by
  have hclock : satAdd64 t0 d = t0 + d := by
    simp only [satAdd64]
    omega
  have hy : applyOp (applyOp ⟨t0, TokenStream.new lam⟩ (Op.deposit P)) (Op.wait d) =
      ⟨t0 + d, ⟨lam, P, 0, P, t0⟩⟩ := by
    simp only [applyOp, TokenStream.deposit_fresh lam t0 P hP, hclock]
  rw [hy]
  have hfac : Real.exp (-lam * (d : ℝ)) ≤ 1 :=
    exp_neg_nonneg_le_one lam (d : ℝ) hlam (Nat.cast_nonneg _)
  have hle : Int.toNat ⌊(P : ℝ) * Real.exp (-lam * (d : ℝ))⌋ ≤ P :=
    toNat_floor_mul_le P _ hfac
  have hbsv : TokenStream.balance_still_vesting ⟨lam, P, 0, P, t0⟩ (t0 + d) =
      Int.toNat ⌊(P : ℝ) * Real.exp (-lam * (d : ℝ))⌋ := by
    rw [TokenStream.balance_still_vesting_eq]
    simp only [show t0 + d - t0 = d by omega]
    omega
  refine ⟨hbsv, ?_, ?_⟩
  · simp only [TokenStream.balance_claimable, TokenStream.total_vested, hbsv]
    omega
  · intro s c hpz
    simp [TokenStream.balance_still_vesting, hpz]

/-- Witness for C2 at a concrete input. -/
theorem C2_decay_correctness_witness :
    (0 ≤ Real.log 2 ∧ 100 ≤ U128MAX ∧ 0 + 1 ≤ U64MAX) ∧
    (((applyOp (applyOp ⟨0, TokenStream.new (Real.log 2)⟩ (Op.deposit 100)) (Op.wait 1)).acct.balance_still_vesting
        (applyOp (applyOp ⟨0, TokenStream.new (Real.log 2)⟩ (Op.deposit 100)) (Op.wait 1)).clock =
      Int.toNat ⌊(100 : ℝ) * Real.exp (-Real.log 2 * ((1 : ℕ) : ℝ))⌋) ∧
    ((applyOp (applyOp ⟨0, TokenStream.new (Real.log 2)⟩ (Op.deposit 100)) (Op.wait 1)).acct.balance_claimable
        (applyOp (applyOp ⟨0, TokenStream.new (Real.log 2)⟩ (Op.deposit 100)) (Op.wait 1)).clock =
      100 - Int.toNat ⌊(100 : ℝ) * Real.exp (-Real.log 2 * ((1 : ℕ) : ℝ))⌋) ∧
    (∀ (s : TokenStream) (c : ℕ), s.last_update_principal = 0 →
      s.balance_still_vesting c = 0)) := by
  have h1 : 0 ≤ Real.log 2 := Real.log_nonneg one_le_two
  have h2 : (100 : ℕ) ≤ U128MAX := by norm_num [U128MAX]
  have h3 : (0 : ℕ) + 1 ≤ U64MAX := by norm_num [U64MAX]
  exact ⟨⟨h1, h2, h3⟩, C2_decay_correctness (Real.log 2) 100 0 1 h1 h2 h3⟩

/-- Claim C9: once the decayed principal floors to zero, `balance_still_vesting`
is exactly 0, a subsequent `claim()` returns the entire deposited total minus
everything previously claimed (`unclaimed_total`), and afterwards the claimable
balance is exactly 0 — no dust remains. -/
theorem C9_dust_rounds_to_zero (s : TokenStream) (c : ℕ)
    (htd : s.total_deposited ≤ U128MAX)
    (h0 : ⌊(s.last_update_principal : ℝ) *
      Real.exp (-s.decay_rate_per_second * ((c - s.last_update_timestamp : ℕ) : ℝ))⌋ = 0) :
    s.balance_still_vesting c = 0 ∧
    (s.claim c).2 = s.unclaimed_total ∧
    (s.claim c).1.balance_claimable c = 0 := by
  have hbsv : s.balance_still_vesting c = 0 := by
    rw [TokenStream.balance_still_vesting_eq, h0]
    simp
  refine ⟨hbsv, ?_, ?_⟩
  · simp only [TokenStream.claim, TokenStream.settle, TokenStream.unclaimed_total, hbsv]
    omega
  · have hafter : (s.claim c).1.balance_still_vesting c = 0 := by
      have : (s.claim c).1.last_update_principal = 0 := by
        simp only [TokenStream.claim, TokenStream.settle, hbsv]
      simp [TokenStream.balance_still_vesting, this]
    simp only [TokenStream.balance_claimable, TokenStream.total_vested, hafter]
    simp only [TokenStream.claim, TokenStream.settle, satAdd128, hbsv]
    omega

/-- Witness for C9: deposit 100 with rate `log 2`, wait 7 seconds:
`floor(100 / 2^7) = 0`, and the claim pays out the full 100. -/
theorem C9_dust_rounds_to_zero_witness :
    (TokenStream.mk (Real.log 2) 100 0 100 0).balance_still_vesting 7 = 0 ∧
    ((TokenStream.mk (Real.log 2) 100 0 100 0).claim 7).2 =
      (TokenStream.mk (Real.log 2) 100 0 100 0).unclaimed_total ∧
    ((TokenStream.mk (Real.log 2) 100 0 100 0).claim 7).1.balance_claimable 7 = 0 := by
  apply C9_dust_rounds_to_zero
  · norm_num [U128MAX]
  · have hcast : (((7 : ℕ) - (0 : ℕ) : ℕ) : ℝ) = ((7 : ℕ) : ℝ) := by norm_num
    simp only [TokenStream.mk.injEq] at *
    rw [show ((7 : ℕ) - (0 : ℕ) : ℕ) = (7 : ℕ) by norm_num]
    rw [exp_neg_log_mul 2 two_pos 7]
    apply Int.floor_eq_zero_iff.mpr
    constructor
    · positivity
    · norm_num

/-- Representation invariant maintained by every operation sequence: the
cumulative claimed total never exceeds the cumulative deposited total, and the
deposited total is a valid `u128`. -/
def WeakInv (s : TokenStream) : Prop :=
  s.total_claimed ≤ s.total_deposited ∧ s.total_deposited ≤ U128MAX

lemma weakInv_applyOp (y : Sys) (o : Op) (h : WeakInv y.acct) :
    WeakInv (applyOp y o).acct := by
  obtain ⟨h1, h2⟩ := h
  cases o with
  | deposit a =>
    simp only [applyOp, TokenStream.deposit, TokenStream.settle, satAdd128, WeakInv]
    omega
  | claim =>
    simp only [applyOp, TokenStream.claim, TokenStream.settle, satAdd128, WeakInv]
    omega
  | settle =>
    simp only [applyOp, TokenStream.settle, WeakInv]
    exact ⟨h1, h2⟩
  | set_half_life d =>
    simp only [applyOp, TokenStream.set_half_life, TokenStream.settle, WeakInv]
    exact ⟨h1, h2⟩
  | wait d =>
    exact ⟨h1, h2⟩

lemma weakInv_foldl (ops : List Op) (y : Sys) (h : WeakInv y.acct) :
    WeakInv (ops.foldl applyOp y).acct := by
  induction ops generalizing y with
  | nil => exact h
  | cons o t ih => exact ih _ (weakInv_applyOp y o h)

/-- Claim C6: in every reachable state, `total_claimed <= total_deposited`;
moreover the bound is enforced by the construction of the claim amount itself:
the amount produced by `claim()` keeps `total_claimed + amt` within
`total_deposited`, so the saturating add in `claim()` never actually clamps
(the new total is exactly the old total plus the returned amount). -/
theorem C6_claimed_le_deposited (y : Sys) (h : Reachable y) :
    y.acct.total_claimed ≤ y.acct.total_deposited ∧
    (∀ c, y.acct.total_claimed + (y.acct.claim c).2 ≤ y.acct.total_deposited ∧
      (y.acct.claim c).1.total_claimed = y.acct.total_claimed + (y.acct.claim c).2) := by
  obtain ⟨r, ops, hr, hv, hrun⟩ := h
  have hw : WeakInv y.acct := by
    rw [← hrun]
    exact weakInv_foldl ops _ ⟨le_refl 0, Nat.zero_le _⟩
  obtain ⟨h1, h2⟩ := hw
  refine ⟨h1, fun c => ?_⟩
  simp only [TokenStream.claim, TokenStream.settle, satAdd128]
  omega

/-- Witness for C6 at a concrete reachable state. -/
theorem C6_claimed_le_deposited_witness :
    (Sys.mk 0 (TokenStream.new 1)).acct.total_claimed ≤
      (Sys.mk 0 (TokenStream.new 1)).acct.total_deposited ∧
    (∀ c, (Sys.mk 0 (TokenStream.new 1)).acct.total_claimed +
        ((Sys.mk 0 (TokenStream.new 1)).acct.claim c).2 ≤
        (Sys.mk 0 (TokenStream.new 1)).acct.total_deposited ∧
      ((Sys.mk 0 (TokenStream.new 1)).acct.claim c).1.total_claimed =
        (Sys.mk 0 (TokenStream.new 1)).acct.total_claimed +
          ((Sys.mk 0 (TokenStream.new 1)).acct.claim c).2) :=
  C6_claimed_le_deposited (Sys.mk 0 (TokenStream.new 1))
    ⟨1, [], one_pos, by simp, rfl⟩

/-- Stronger invariant used for conservation: non-negative rate, and claimed
plus the principal snapshot bounded by the deposited total (all within `u128`).
It is maintained as long as no deposit saturates `total_deposited`. -/
def StrongInv (s : TokenStream) : Prop :=
  0 ≤ s.decay_rate_per_second ∧
  s.total_claimed + s.last_update_principal ≤ s.total_deposited ∧
  s.total_deposited ≤ U128MAX

lemma strongInv_applyOp (y : Sys) (o : Op) (h : StrongInv y.acct) (hv : OpValid o)
    (hd : y.acct.total_deposited + depAmt o ≤ U128MAX) :
    StrongInv (applyOp y o).acct ∧
      (applyOp y o).acct.total_deposited = y.acct.total_deposited + depAmt o := by
  obtain ⟨h1, h2, h3⟩ := h
  have hp : y.acct.balance_still_vesting y.clock ≤ y.acct.last_update_principal :=
    TokenStream.balance_still_vesting_le_principal _ _ h1
  cases o with
  | deposit a =>
    simp only [applyOp, TokenStream.deposit, TokenStream.settle, satAdd128, StrongInv,
      depAmt] at *
    refine ⟨⟨h1, ?_, ?_⟩, ?_⟩ <;> omega
  | claim =>
    simp only [applyOp, TokenStream.claim, TokenStream.settle, satAdd128, StrongInv,
      depAmt] at *
    refine ⟨⟨h1, ?_, ?_⟩, ?_⟩ <;> omega
  | settle =>
    simp only [applyOp, TokenStream.settle, StrongInv, depAmt] at *
    refine ⟨⟨h1, ?_, ?_⟩, ?_⟩ <;> omega
  | set_half_life d =>
    simp only [applyOp, TokenStream.set_half_life, TokenStream.settle,
      TokenStream.decay_rate_from_half_life, StrongInv, depAmt, OpValid] at *
    refine ⟨⟨?_, ?_, ?_⟩, ?_⟩
    · exact div_nonneg (Real.log_nonneg one_le_two) (le_of_lt hv)
    · omega
    · omega
    · omega
  | wait d =>
    simp only [applyOp, StrongInv, depAmt] at *
    refine ⟨⟨h1, ?_, ?_⟩, ?_⟩ <;> omega

lemma conservation_of_strongInv (y : Sys) (h : StrongInv y.acct) : conservation y := by
  obtain ⟨h1, h2, h3⟩ := h
  have hp : y.acct.balance_still_vesting y.clock ≤ y.acct.last_update_principal :=
    TokenStream.balance_still_vesting_le_principal _ _ h1
  simp only [conservation, TokenStream.balance_claimable, TokenStream.total_vested]
  omega

lemma consAlong_of_strongInv (ops : List Op) (y : Sys) (h : StrongInv y.acct)
    (hv : ∀ o ∈ ops, OpValid o) (hd : y.acct.total_deposited + depSum ops ≤ U128MAX) :
    consAlong y ops := by
  induction ops generalizing y with
  | nil => trivial
  | cons o t ih =>
    have hsum : depSum (o :: t) = depAmt o + depSum t := by
      simp [depSum]
    obtain ⟨h', htd'⟩ := strongInv_applyOp y o h (hv o (List.mem_cons_self o t))
      (by omega)
    refine ⟨conservation_of_strongInv _ h', ih _ h'
      (fun x hx => hv x (List.mem_cons_of_mem o hx)) (by omega)⟩

/-- Claim C1 (amended): for every sequence of valid operations (positive
initial decay rate; positive half-life arguments) in which the total of all
deposited amounts fits in a `u128` (so `total_deposited` never saturates), the
conservation equation
`total_deposited == total_claimed + balance_still_vesting() + balance_claimable()`
holds initially and after every operation. -/
theorem C1_conservation (r : ℝ) (ops : List Op) (hr : 0 < r)
    (hv : ∀ o ∈ ops, OpValid o) (hs : depSum ops ≤ U128MAX) :
    conservation ⟨0, TokenStream.new r⟩ ∧ consAlong ⟨0, TokenStream.new r⟩ ops := by
  have h0 : StrongInv (TokenStream.new r) := by
    refine ⟨le_of_lt hr, ?_, ?_⟩ <;> simp [TokenStream.new]
  exact ⟨conservation_of_strongInv _ h0,
    consAlong_of_strongInv ops _ h0 hv (by simpa [TokenStream.new] using hs)⟩

/-- Witness for C1 at a concrete operation sequence. -/
theorem C1_conservation_witness :
    conservation ⟨0, TokenStream.new 1⟩ ∧
      consAlong ⟨0, TokenStream.new 1⟩ [Op.deposit 5, Op.claim, Op.wait 3] := by
  apply C1_conservation 1 [Op.deposit 5, Op.claim, Op.wait 3] one_pos
  · intro o ho
    fin_cases ho <;> norm_num [OpValid, U128MAX]
  · norm_num [depSum, depAmt, U128MAX]

/-- Claim C1, counterexample to the unamended statement: with rate `log 2`,
deposit 100, wait 1 second, claim (pays 50), then deposit `u128::MAX`.  The
deposit saturates `total_deposited` at `U128MAX` while the rebased principal
also saturates at `U128MAX`, so afterwards
`total_claimed + still_vesting + claimable = 50 + U128MAX + 0 ≠ U128MAX`. -/
theorem C1_conservation_counterexample :
    (0 < Real.log 2 ∧
      ∀ o ∈ [Op.deposit 100, Op.wait 1, Op.claim, Op.deposit U128MAX], OpValid o) ∧
    ¬ consAlong ⟨0, TokenStream.new (Real.log 2)⟩
      [Op.deposit 100, Op.wait 1, Op.claim, Op.deposit U128MAX] := by
  have hlog : 0 < Real.log 2 := Real.log_pos one_lt_two
  refine ⟨⟨hlog, ?_⟩, ?_⟩
  · intro o ho
    fin_cases ho <;> norm_num [OpValid, U128MAX]
  · have h100 : (100 : ℕ) ≤ U128MAX := by norm_num [U128MAX]
    have hy1 : applyOp ⟨0, TokenStream.new (Real.log 2)⟩ (Op.deposit 100) =
        ⟨0, ⟨Real.log 2, 100, 0, 100, 0⟩⟩ := by
      simp only [applyOp, TokenStream.deposit_fresh (Real.log 2) 0 100 h100]
    have hy2 : applyOp (⟨0, ⟨Real.log 2, 100, 0, 100, 0⟩⟩ : Sys) (Op.wait 1) =
        ⟨1, ⟨Real.log 2, 100, 0, 100, 0⟩⟩ := by
      simp only [applyOp, satAdd64, Sys.mk.injEq, and_true]
      norm_num [U64MAX]
    have hb1 : TokenStream.balance_still_vesting ⟨Real.log 2, 100, 0, 100, 0⟩ 1 = 50 := by
      rw [TokenStream.balance_still_vesting_eq]
      norm_num
      rw [Real.exp_neg, Real.exp_log two_pos]
      norm_num [U128MAX]
      rfl
    have hy3 : applyOp (⟨1, ⟨Real.log 2, 100, 0, 100, 0⟩⟩ : Sys) Op.claim =
        ⟨1, ⟨Real.log 2, 100, 50, 50, 1⟩⟩ := by
      simp only [applyOp, TokenStream.claim, TokenStream.settle, hb1, satAdd128,
        Sys.mk.injEq, TokenStream.mk.injEq]
      norm_num [U128MAX]
    have hb3 : TokenStream.balance_still_vesting ⟨Real.log 2, 100, 50, 50, 1⟩ 1 = 50 := by
      apply TokenStream.balance_still_vesting_dt_zero_eq _ _ (le_refl 1)
      norm_num [U128MAX]
    have hy4 : applyOp (⟨1, ⟨Real.log 2, 100, 50, 50, 1⟩⟩ : Sys) (Op.deposit U128MAX) =
        ⟨1, ⟨Real.log 2, U128MAX, 50, U128MAX, 1⟩⟩ := by
      simp only [applyOp, TokenStream.deposit, TokenStream.settle, hb3, satAdd128,
        Sys.mk.injEq, TokenStream.mk.injEq]
      norm_num [U128MAX]
    have hb4 : TokenStream.balance_still_vesting ⟨Real.log 2, U128MAX, 50, U128MAX, 1⟩ 1 =
        U128MAX := by
      apply TokenStream.balance_still_vesting_dt_zero_eq _ _ (le_refl 1) (le_refl _)
    intro h
    simp only [consAlong] at h
    rw [hy1, hy2, hy3, hy4] at h
    have h4 := h.2.2.2.1
    simp only [conservation, TokenStream.balance_claimable, TokenStream.total_vested,
      hb4] at h4
    omega

lemma strongInv_foldl (ops : List Op) (y : Sys) (h : StrongInv y.acct)
    (hv : ∀ o ∈ ops, OpValid o) (hd : y.acct.total_deposited + depSum ops ≤ U128MAX) :
    StrongInv ((ops.foldl applyOp y).acct) := by
  induction ops generalizing y with
  | nil => exact h
  | cons o t ih =>
    have hsum : depSum (o :: t) = depAmt o + depSum t := by
      simp [depSum]
    obtain ⟨h', htd'⟩ := strongInv_applyOp y o h (hv o (List.mem_cons_self o t))
      (by omega)
    exact ih _ h' (fun x hx => hv x (List.mem_cons_of_mem o hx)) (by omega)

/-- Reachability by a valid operation sequence whose deposits, in total, fit in
a `u128` — i.e. reachability without `total_deposited` ever saturating. -/
def ReachableNoSat (y : Sys) : Prop :=
  ∃ r ops, 0 < r ∧ (∀ o ∈ ops, OpValid o) ∧ depSum ops ≤ U128MAX ∧ run r ops = y

lemma strongInv_of_reachableNoSat (y : Sys) (h : ReachableNoSat y) :
    StrongInv y.acct := by
  obtain ⟨r, ops, hr, hv, hs, hrun⟩ := h
  rw [← hrun]
  apply strongInv_foldl ops _ _ hv
  · simpa [TokenStream.new] using hs
  · exact ⟨le_of_lt hr, by simp [TokenStream.new], by simp [TokenStream.new]⟩

/-- Claim C4 (amended): for every state reachable without saturation and every
deposit that does not saturate `total_deposited`, depositing leaves the
claimable balance unchanged while the still-vesting balance grows by exactly
the deposited amount. -/
theorem C4_deposit_frame (y : Sys) (a : ℕ) (h : ReachableNoSat y)
    (ha : y.acct.total_deposited + a ≤ U128MAX) :
    (y.acct.deposit y.clock a).balance_claimable y.clock =
      y.acct.balance_claimable y.clock ∧
    (y.acct.deposit y.clock a).balance_still_vesting y.clock =
      y.acct.balance_still_vesting y.clock + a := by
  obtain ⟨h1, h2, h3⟩ := strongInv_of_reachableNoSat y h
  have hp : y.acct.balance_still_vesting y.clock ≤ y.acct.last_update_principal :=
    TokenStream.balance_still_vesting_le_principal _ _ h1
  have hbafter : (y.acct.deposit y.clock a).balance_still_vesting y.clock =
      y.acct.balance_still_vesting y.clock + a := by
    apply TokenStream.balance_still_vesting_dt_zero_eq _ _ _ _ |>.trans
    rotate_left
    · simp [TokenStream.deposit, TokenStream.settle]
    · simp only [TokenStream.deposit, TokenStream.settle, satAdd128]
      omega
    · simp only [TokenStream.deposit, TokenStream.settle, satAdd128]
      omega
  refine ⟨?_, hbafter⟩
  simp only [TokenStream.balance_claimable, TokenStream.total_vested, hbafter]
  simp only [TokenStream.deposit, TokenStream.settle, satAdd128]
  omega

/-- Witness for the amended C4 at a concrete input. -/
theorem C4_deposit_frame_witness :
    ((TokenStream.new 1).deposit 0 5).balance_claimable 0 =
      (TokenStream.new 1).balance_claimable 0 ∧
    ((TokenStream.new 1).deposit 0 5).balance_still_vesting 0 =
      (TokenStream.new 1).balance_still_vesting 0 + 5 :=
  C4_deposit_frame ⟨0, TokenStream.new 1⟩ 5
    ⟨1, [], one_pos, by simp, by norm_num [depSum, U128MAX], rfl⟩
    (by norm_num [TokenStream.new, U128MAX])

/-- Claim C4, counterexample to the unamended statement: the reachable state
after depositing 100 at rate `log 2` and waiting 1 second has claimable
balance 50; depositing `u128::MAX` saturates both `total_deposited` and the
rebased principal at `U128MAX`, which collapses the claimable balance to 0 and
fails the `+ amount` law for the still-vesting balance. -/
theorem C4_deposit_frame_counterexample :
    Reachable ⟨1, ⟨Real.log 2, 100, 0, 100, 0⟩⟩ ∧
    ¬ ((TokenStream.deposit ⟨Real.log 2, 100, 0, 100, 0⟩ 1 U128MAX).balance_claimable 1 =
        TokenStream.balance_claimable ⟨Real.log 2, 100, 0, 100, 0⟩ 1 ∧
      (TokenStream.deposit ⟨Real.log 2, 100, 0, 100, 0⟩ 1 U128MAX).balance_still_vesting 1 =
        TokenStream.balance_still_vesting ⟨Real.log 2, 100, 0, 100, 0⟩ 1 + U128MAX) := by
  have h100 : (100 : ℕ) ≤ U128MAX := by norm_num [U128MAX]
  have hb1 : TokenStream.balance_still_vesting ⟨Real.log 2, 100, 0, 100, 0⟩ 1 = 50 := by
    rw [TokenStream.balance_still_vesting_eq]
    norm_num
    rw [Real.exp_neg, Real.exp_log two_pos]
    norm_num [U128MAX]
    rfl
  constructor
  · refine ⟨Real.log 2, [Op.deposit 100, Op.wait 1], Real.log_pos one_lt_two, ?_, ?_⟩
    · intro o ho
      fin_cases ho <;> norm_num [OpValid, U128MAX]
    · simp only [run, List.foldl, applyOp,
        TokenStream.deposit_fresh (Real.log 2) 0 100 h100, satAdd64, Sys.mk.injEq, and_true]
      norm_num [U64MAX]
  · have hdep : TokenStream.deposit ⟨Real.log 2, 100, 0, 100, 0⟩ 1 U128MAX =
        ⟨Real.log 2, U128MAX, 0, U128MAX, 1⟩ := by
      simp only [TokenStream.deposit, TokenStream.settle, hb1, satAdd128,
        TokenStream.mk.injEq]
      norm_num [U128MAX]
    have hbafter : TokenStream.balance_still_vesting ⟨Real.log 2, U128MAX, 0, U128MAX, 1⟩ 1 =
        U128MAX :=
      TokenStream.balance_still_vesting_dt_zero_eq _ _ (le_refl 1) (le_refl _)
    rw [hdep]
    intro hcontra
    obtain ⟨hc, _⟩ := hcontra
    simp only [TokenStream.balance_claimable, TokenStream.total_vested, hbafter, hb1] at hc
    omega

/-- Two-step decay with an intermediate floor, compared against one-step decay:
the intermediate rounding can lose at most one unit. -/
lemma floor_split_bounds (P : ℕ) (x y : ℝ) (hx : 0 ≤ x) (hy0 : 0 < y) (hy1 : y ≤ 1) :
    Int.toNat ⌊((Int.toNat ⌊(P : ℝ) * x⌋ : ℕ) : ℝ) * y⌋ ≤ Int.toNat ⌊(P : ℝ) * x * y⌋ ∧
    Int.toNat ⌊(P : ℝ) * x * y⌋ ≤ Int.toNat ⌊((Int.toNat ⌊(P : ℝ) * x⌋ : ℕ) : ℝ) * y⌋ + 1 := by
  have hPx0 : (0 : ℝ) ≤ (P : ℝ) * x := mul_nonneg (Nat.cast_nonneg _) hx
  have hfl0 : 0 ≤ ⌊(P : ℝ) * x⌋ := Int.floor_nonneg.mpr hPx0
  have hcast : ((Int.toNat ⌊(P : ℝ) * x⌋ : ℕ) : ℝ) = ((⌊(P : ℝ) * x⌋ : ℤ) : ℝ) := by
    exact_mod_cast congrArg (fun z : ℤ => (z : ℝ)) (Int.toNat_of_nonneg hfl0)
  have h1 : ((Int.toNat ⌊(P : ℝ) * x⌋ : ℕ) : ℝ) ≤ (P : ℝ) * x := by
    rw [hcast]
    exact Int.floor_le _
  have h2 : (P : ℝ) * x < ((Int.toNat ⌊(P : ℝ) * x⌋ : ℕ) : ℝ) + 1 := by
    rw [hcast]
    exact Int.lt_floor_add_one _
  have hle : ⌊((Int.toNat ⌊(P : ℝ) * x⌋ : ℕ) : ℝ) * y⌋ ≤ ⌊(P : ℝ) * x * y⌋ :=
    Int.floor_le_floor (by nlinarith)
  have hge : ⌊(P : ℝ) * x * y⌋ ≤ ⌊((Int.toNat ⌊(P : ℝ) * x⌋ : ℕ) : ℝ) * y⌋ + 1 := by
    have h3 : ((⌊(P : ℝ) * x * y⌋ : ℤ) : ℝ) ≤ (P : ℝ) * x * y := Int.floor_le _
    have h4 : ((Int.toNat ⌊(P : ℝ) * x⌋ : ℕ) : ℝ) * y <
        ((⌊((Int.toNat ⌊(P : ℝ) * x⌋ : ℕ) : ℝ) * y⌋ : ℤ) : ℝ) + 1 := Int.lt_floor_add_one _
    have h5 : ((⌊(P : ℝ) * x * y⌋ : ℤ) : ℝ) <
        ((⌊((Int.toNat ⌊(P : ℝ) * x⌋ : ℕ) : ℝ) * y⌋ : ℤ) : ℝ) + 2 := by nlinarith
    have h6 : ⌊(P : ℝ) * x * y⌋ < ⌊((Int.toNat ⌊(P : ℝ) * x⌋ : ℕ) : ℝ) * y⌋ + 2 := by
      exact_mod_cast h5
    omega
  omega

/-- Claim C5 (amended): deposit `P` at time 0 with rate `lam ≥ 0`; claiming at
time `a` and again at time `a + b` yields a total at least the single claim at
time `a + b`, and exceeds it by at most one unit (the intermediate floor can
round at most one extra unit into the claimant's favor).  Exact equality — the
original claim — does not hold in general. -/
theorem C5_split_time (lam : ℝ) (P a b : ℕ) (hlam : 0 ≤ lam) (hP : P ≤ U128MAX) :
    ((((TokenStream.new lam).deposit 0 P).claim (a + b)).2 ≤
      (((TokenStream.new lam).deposit 0 P).claim a).2 +
      ((((TokenStream.new lam).deposit 0 P).claim a).1.claim (a + b)).2) ∧
    ((((TokenStream.new lam).deposit 0 P).claim a).2 +
      ((((TokenStream.new lam).deposit 0 P).claim a).1.claim (a + b)).2 ≤
      (((TokenStream.new lam).deposit 0 P).claim (a + b)).2 + 1) := by
  have hs0 : (TokenStream.new lam).deposit 0 P = ⟨lam, P, 0, P, 0⟩ :=
    TokenStream.deposit_fresh lam 0 P hP
  have hx0 : (0 : ℝ) < Real.exp (-lam * (a : ℝ)) := Real.exp_pos _
  have hx1 : Real.exp (-lam * (a : ℝ)) ≤ 1 :=
    exp_neg_nonneg_le_one lam _ hlam (Nat.cast_nonneg _)
  have hy0 : (0 : ℝ) < Real.exp (-lam * (b : ℝ)) := Real.exp_pos _
  have hy1 : Real.exp (-lam * (b : ℝ)) ≤ 1 :=
    exp_neg_nonneg_le_one lam _ hlam (Nat.cast_nonneg _)
  have hxy : Real.exp (-lam * ((a + b : ℕ) : ℝ)) =
      Real.exp (-lam * (a : ℝ)) * Real.exp (-lam * (b : ℝ)) := by
    rw [← Real.exp_add]
    push_cast
    ring_nf
  have hp1le : Int.toNat ⌊(P : ℝ) * Real.exp (-lam * (a : ℝ))⌋ ≤ P :=
    toNat_floor_mul_le P _ hx1
  have hb_a : TokenStream.balance_still_vesting ⟨lam, P, 0, P, 0⟩ a =
      Int.toNat ⌊(P : ℝ) * Real.exp (-lam * (a : ℝ))⌋ := by
    rw [TokenStream.balance_still_vesting_eq]
    simp only [Nat.sub_zero]
    omega
  have hc1 : TokenStream.claim ⟨lam, P, 0, P, 0⟩ a =
      (⟨lam, P, P - Int.toNat ⌊(P : ℝ) * Real.exp (-lam * (a : ℝ))⌋,
        Int.toNat ⌊(P : ℝ) * Real.exp (-lam * (a : ℝ))⌋, a⟩,
       P - Int.toNat ⌊(P : ℝ) * Real.exp (-lam * (a : ℝ))⌋) := by
    simp only [TokenStream.claim, TokenStream.settle, hb_a, satAdd128, Nat.sub_zero,
      Nat.zero_add]
    rw [min_eq_left (by omega)]
  have hp2le : Int.toNat ⌊((Int.toNat ⌊(P : ℝ) * Real.exp (-lam * (a : ℝ))⌋ : ℕ) : ℝ) *
      Real.exp (-lam * (b : ℝ))⌋ ≤ Int.toNat ⌊(P : ℝ) * Real.exp (-lam * (a : ℝ))⌋ :=
    toNat_floor_mul_le _ _ hy1
  have hb_ab : TokenStream.balance_still_vesting
      ⟨lam, P, P - Int.toNat ⌊(P : ℝ) * Real.exp (-lam * (a : ℝ))⌋,
        Int.toNat ⌊(P : ℝ) * Real.exp (-lam * (a : ℝ))⌋, a⟩ (a + b) =
      Int.toNat ⌊((Int.toNat ⌊(P : ℝ) * Real.exp (-lam * (a : ℝ))⌋ : ℕ) : ℝ) *
        Real.exp (-lam * (b : ℝ))⌋ := by
    rw [TokenStream.balance_still_vesting_eq]
    simp only [show a + b - a = b by omega]
    omega
  have hxyle : Real.exp (-lam * (a : ℝ)) * Real.exp (-lam * (b : ℝ)) ≤ 1 := by
    nlinarith
  have hqle : Int.toNat ⌊(P : ℝ) * (Real.exp (-lam * (a : ℝ)) *
      Real.exp (-lam * (b : ℝ)))⌋ ≤ P :=
    toNat_floor_mul_le P _ hxyle
  have hb_single : TokenStream.balance_still_vesting ⟨lam, P, 0, P, 0⟩ (a + b) =
      Int.toNat ⌊(P : ℝ) * (Real.exp (-lam * (a : ℝ)) * Real.exp (-lam * (b : ℝ)))⌋ := by
    rw [TokenStream.balance_still_vesting_eq]
    simp only [Nat.sub_zero, hxy]
    omega
  have hsplit := floor_split_bounds P (Real.exp (-lam * (a : ℝ)))
    (Real.exp (-lam * (b : ℝ))) (le_of_lt hx0) hy0 hy1
  rw [show (P : ℝ) * Real.exp (-lam * (a : ℝ)) * Real.exp (-lam * (b : ℝ)) =
    (P : ℝ) * (Real.exp (-lam * (a : ℝ)) * Real.exp (-lam * (b : ℝ))) from
    mul_assoc _ _ _] at hsplit
  rw [hs0, hc1]
  simp only [TokenStream.claim, TokenStream.settle, hb_ab, hb_single, satAdd128]
  omega

/-- Witness for the amended C5 at a concrete input. -/
theorem C5_split_time_witness :
    (0 ≤ Real.log 2 ∧ 100 ≤ U128MAX) ∧
    ((((TokenStream.new (Real.log 2)).deposit 0 100).claim (1 + 1)).2 ≤
      (((TokenStream.new (Real.log 2)).deposit 0 100).claim 1).2 +
      ((((TokenStream.new (Real.log 2)).deposit 0 100).claim 1).1.claim (1 + 1)).2) ∧
    ((((TokenStream.new (Real.log 2)).deposit 0 100).claim 1).2 +
      ((((TokenStream.new (Real.log 2)).deposit 0 100).claim 1).1.claim (1 + 1)).2 ≤
      (((TokenStream.new (Real.log 2)).deposit 0 100).claim (1 + 1)).2 + 1) := by
  have h1 : 0 ≤ Real.log 2 := Real.log_nonneg one_le_two
  have h2 : (100 : ℕ) ≤ U128MAX := by norm_num [U128MAX]
  exact ⟨⟨h1, h2⟩, C5_split_time (Real.log 2) 100 1 1 h1 h2⟩

/-- Claim C5, counterexample to the exact-equality statement: with rate
`log(3/2)` (decay factor 2/3 per second) and a deposit of 7, claiming after 1
second and again after 1 more second pays 3 + 2 = 5 in total, while a single
claim after 2 seconds pays only 4 (`floor(7 * 4/9) = 3` still vesting). -/
theorem C5_split_time_counterexample :
    ¬ ((((TokenStream.new (Real.log (3 / 2))).deposit 0 7).claim 1).2 +
      ((((TokenStream.new (Real.log (3 / 2))).deposit 0 7).claim 1).1.claim 2).2 =
      (((TokenStream.new (Real.log (3 / 2))).deposit 0 7).claim 2).2) := by
  have h7 : (7 : ℕ) ≤ U128MAX := by norm_num [U128MAX]
  have hs0 : (TokenStream.new (Real.log (3 / 2))).deposit 0 7 =
      ⟨Real.log (3 / 2), 7, 0, 7, 0⟩ :=
    TokenStream.deposit_fresh (Real.log (3 / 2)) 0 7 h7
  have hb1 : TokenStream.balance_still_vesting ⟨Real.log (3 / 2), 7, 0, 7, 0⟩ 1 = 4 := by
    rw [TokenStream.balance_still_vesting_eq]
    rw [show ((1 : ℕ) - (0 : ℕ) : ℕ) = (1 : ℕ) from rfl]
    rw [exp_neg_log_mul (3 / 2) (by norm_num) 1]
    norm_num [U128MAX]
    rfl
  have hc1 : TokenStream.claim ⟨Real.log (3 / 2), 7, 0, 7, 0⟩ 1 =
      (⟨Real.log (3 / 2), 7, 3, 4, 1⟩, 3) := by
    simp only [TokenStream.claim, TokenStream.settle, hb1, satAdd128, Prod.mk.injEq,
      TokenStream.mk.injEq]
    norm_num [U128MAX]
  have hb2 : TokenStream.balance_still_vesting ⟨Real.log (3 / 2), 7, 3, 4, 1⟩ 2 = 2 := by
    rw [TokenStream.balance_still_vesting_eq]
    rw [show ((2 : ℕ) - (1 : ℕ) : ℕ) = (1 : ℕ) from rfl]
    rw [exp_neg_log_mul (3 / 2) (by norm_num) 1]
    norm_num [U128MAX]
    rfl
  have hc2 : TokenStream.claim ⟨Real.log (3 / 2), 7, 3, 4, 1⟩ 2 =
      (⟨Real.log (3 / 2), 7, 5, 2, 2⟩, 2) := by
    simp only [TokenStream.claim, TokenStream.settle, hb2, satAdd128, Prod.mk.injEq,
      TokenStream.mk.injEq]
    norm_num [U128MAX]
  have hbs : TokenStream.balance_still_vesting ⟨Real.log (3 / 2), 7, 0, 7, 0⟩ 2 = 3 := by
    rw [TokenStream.balance_still_vesting_eq]
    rw [show ((2 : ℕ) - (0 : ℕ) : ℕ) = (2 : ℕ) from rfl]
    rw [exp_neg_log_mul (3 / 2) (by norm_num) 2]
    norm_num [U128MAX]
    rfl
  have hcs : (TokenStream.claim ⟨Real.log (3 / 2), 7, 0, 7, 0⟩ 2).2 = 4 := by
    simp only [TokenStream.claim, TokenStream.settle, hbs]
  rw [hs0, hc1, hc2, hcs]
  norm_num

/-- Claim C8 (amended): `TokenStream::new_from_half_life(h)` stores the rate
`ln(2) / h` exactly; `RewardBucket::new_from_half_life(h)` instead stores
`ln(2) / (h * 86400)` (it converts its day-denominated half-life to seconds),
so only `TokenStream` satisfies `new_from_half_life(h) == new(ln(2)/h)`. -/
theorem C8_half_life_constructors (h : ℝ) (hh : 0 < h) :
    TokenStream.new_from_half_life h = TokenStream.new (Real.log 2 / h) ∧
    RewardBucket.new_from_half_life h = RewardBucket.new (Real.log 2 / (h * 86400)) := by
  constructor
  · rfl
  · simp [RewardBucket.new_from_half_life, RewardBucket.new,
      RewardBucket.decay_rate_from_half_life, RewardBucket.SECONDS_PER_DAY]

/-- Witness for the amended C8 at a concrete input. -/
theorem C8_half_life_constructors_witness :
    TokenStream.new_from_half_life 1 = TokenStream.new (Real.log 2 / 1) ∧
    RewardBucket.new_from_half_life 1 = RewardBucket.new (Real.log 2 / (1 * 86400)) :=
  C8_half_life_constructors 1 one_pos

/-- Claim C8, counterexample to the original statement: for `RewardBucket` the
constructed rate is `ln(2)/86400`, not `ln(2)/1`, already at half-life 1. -/
theorem C8_half_life_counterexample :
    ¬ RewardBucket.new_from_half_life 1 = RewardBucket.new (Real.log 2 / 1) := by
  intro hcontra
  have hrate := congrArg RewardBucket.decay_rate_per_second hcontra
  simp only [RewardBucket.new_from_half_life, RewardBucket.new,
    RewardBucket.decay_rate_from_half_life, RewardBucket.SECONDS_PER_DAY] at hrate
  have hlog : 0 < Real.log 2 := Real.log_pos one_lt_two
  rw [div_eq_div_iff (by norm_num) (by norm_num)] at hrate
  nlinarith

end
